import Mathlib

set_option maxHeartbeats 1000000

/-!
Verification of the AnglE training core (`angle.py`).

The numeric loss functions of the source operate on float tensors; they are
embedded here over the real numbers, with tensors of shape (2N,) and (2N, d)
represented as `List ℝ` and `List (List ℝ)`.  The batch-construction code
(tokenizer guard, collator, pooler dispatch) is discrete and is embedded
computably over `List ℤ` token sequences.
-/

/-- Elements of a list at even positions, modelling the tensor slice `t[::2]`. -/
def everyOther {α : Type} : List α → List α
  | [] => []
  | [a] => [a]
  | a :: _ :: rest => a :: everyOther rest

/-- Slice `t[1::2]` (elements at odd positions). -/
def oddSlice {α : Type} (xs : List α) : List α :=
  everyOther (xs.drop 1)

/-- Dot product of two rows, modelling `torch.sum(u * v)` over one row. -/
noncomputable def dotRow (u v : List ℝ) : ℝ :=
  (List.zipWith (fun a b => a * b) u v).sum

/-- Squared-entry sum of a row. -/
noncomputable def sumSq (v : List ℝ) : ℝ :=
  (v.map (fun x => x ^ 2)).sum

/-- Row L2-normalization, modelling `F.normalize(t, p=2, dim=1)` on one row:
each entry is divided by `max(norm, eps)` with torch's default `eps = 1e-12`. -/
noncomputable def normalizeRow (v : List ℝ) : List ℝ :=
  v.map (fun x => x / max (Real.sqrt (sumSq v)) (1 / 10 ^ 12))

/-- Log-sum-exp of a list of reals, modelling `torch.logsumexp(t, dim=0)`. -/
noncomputable def logsumexp (xs : List ℝ) : ℝ :=
  Real.log ((xs.map Real.exp).sum)

/-- Pairwise-difference matrix `s[:, None] - s[None, :]` flattened row-major is
`(pairDiffs s).join`; entry (k, l) is `s_k - s_l`. -/
noncomputable def pairDiffs (s : List ℝ) : List (List ℝ) :=
  s.map (fun a => s.map (fun b => a - b))

/-- Strict-order indicator matrix `(y[:, None] < y[None, :]).float()`:
entry (k, l) is 1 when `y_k < y_l`, else 0. -/
noncomputable def ltMatrix (y : List ℝ) : List (List ℝ) :=
  y.map (fun a => y.map (fun b => if a < b then (1 : ℝ) else 0))

/-- Embedding of `cosine_loss(y_true, y_pred, tau)` from `angle.py`.
`y_true` is the label column of the (2N, 1) label tensor, `y_pred` the (2N, d)
embedding matrix.  Gold labels are read at even rows, embeddings are
L2-normalized, consecutive rows are paired and their scaled cosine
similarities ranked pairwise; order-satisfying pairs are masked by a `-1e12`
offset and the result is the log-sum-exp with an explicit leading zero. -/
noncomputable def cosine_loss (y_true : List ℝ) (y_pred : List (List ℝ)) (tau : ℝ) : ℝ :=
  let y := everyOther y_true
  let t := ltMatrix y
  let yp := y_pred.map normalizeRow
  let s := List.zipWith (fun u v => dotRow u v * tau) (everyOther yp) (oddSlice yp)
  let masked := List.zipWith (List.zipWith (fun d tv => d - (1 - tv) * 10 ^ 12)) (pairDiffs s) t
  logsumexp (0 :: masked.flatten)

lemma normalizeRow_unit_x : normalizeRow [(1 : ℝ), 0] = [1, 0] := by
  have h1 : sumSq [(1 : ℝ), 0] = 1 := by
    simp [sumSq]
  have h2 : max (Real.sqrt (sumSq [(1 : ℝ), 0])) (((10 : ℝ) ^ 12)⁻¹) = 1 := by
    rw [h1, Real.sqrt_one]
    exact max_eq_left (by norm_num)
  simp [normalizeRow, h2]

lemma normalizeRow_unit_y : normalizeRow [(0 : ℝ), 1] = [0, 1] := by
  have h1 : sumSq [(0 : ℝ), 1] = 1 := by
    simp [sumSq]
  have h2 : max (Real.sqrt (sumSq [(0 : ℝ), 1])) (((10 : ℝ) ^ 12)⁻¹) = 1 := by
    rw [h1, Real.sqrt_one]
    exact max_eq_left (by norm_num)
  simp [normalizeRow, h2]

lemma cosine_loss_c2_value :
    cosine_loss [0, 0, 1, 1] [[1, 0], [1, 0], [0, 1], [0, 1]] 20 =
      Real.log (2 + 3 * Real.exp (-(10 : ℝ) ^ 12)) := by
  rw [cosine_loss]
  simp only [everyOther, oddSlice, List.drop, List.map_cons, List.map_nil,
    normalizeRow_unit_x, normalizeRow_unit_y]
  simp only [List.zipWith_cons_cons, List.zipWith_nil_right, List.zipWith_nil_left]
  rw [show dotRow [(1 : ℝ), 0] [1, 0] = 1 by simp [dotRow]]
  rw [show dotRow [(0 : ℝ), 1] [0, 1] = 1 by simp [dotRow]]
  rw [pairDiffs, ltMatrix]
  norm_num [logsumexp, Real.exp_zero]
  ring_nf

/-- C2: with 2 pairs, gold labels `[0, 1]` (read at even rows) and identical
embeddings within each pair, `cosine_loss` evaluates to the log-sum-exp of the
explicit zero term plus the single unmasked zero-gap violation term: its exact
real value is `log (2 + 3·exp(-10^12))`, which is within `(3/2)·exp(-10^12)` of
`log 2` (in the source's floating-point arithmetic, where `exp(-10^12)`
underflows to zero, the value is exactly `log 2`). -/
theorem cosine_loss_two_pairs_log_two :
    cosine_loss [0, 0, 1, 1] [[1, 0], [1, 0], [0, 1], [0, 1]] 20 =
      Real.log (2 + 3 * Real.exp (-(10 : ℝ) ^ 12)) ∧
    |cosine_loss [0, 0, 1, 1] [[1, 0], [1, 0], [0, 1], [0, 1]] 20 - Real.log 2| ≤
      3 / 2 * Real.exp (-(10 : ℝ) ^ 12) := by
  refine ⟨cosine_loss_c2_value, ?_⟩
  rw [cosine_loss_c2_value]
  have hε : (0 : ℝ) < Real.exp (-(10 : ℝ) ^ 12) := Real.exp_pos _
  set ε : ℝ := Real.exp (-(10 : ℝ) ^ 12) with hεdef
  have h2 : (0 : ℝ) < 2 + 3 * ε := by linarith
  have hdiff : Real.log (2 + 3 * ε) - Real.log 2 = Real.log ((2 + 3 * ε) / 2) := by
    rw [Real.log_div (by linarith) (by norm_num)]
  have hup : Real.log ((2 + 3 * ε) / 2) ≤ (2 + 3 * ε) / 2 - 1 :=
    Real.log_le_sub_one_of_pos (by linarith)
  have hlo : (0 : ℝ) ≤ Real.log ((2 + 3 * ε) / 2) :=
    Real.log_nonneg (by linarith)
  rw [abs_le]
  constructor
  · linarith [hdiff, hlo]
  · have : (2 + 3 * ε) / 2 - 1 = 3 / 2 * ε := by ring
    linarith [hdiff, hup]

/-- Truncation toward zero, modelling the tensor cast `t.int()` on a float. -/
noncomputable def truncInt (x : ℝ) : ℤ :=
  if x < 0 then ⌈x⌉ else ⌊x⌋

/-- Partner index `idxs + 1 - idxs % 2 * 2` from `make_target_matrix`:
even row `i` is paired with `i + 1`, odd row `i` with `i - 1`. -/
def partnerIdx (i : ℕ) : ℤ :=
  (i : ℤ) + 1 - ((i % 2 : ℕ) : ℤ) * 2

/-- Column encoding `idxs_1 = idxs * y_true.T + (y_true.T == 0) * -2` of
`make_target_matrix`, at column `j` for the `.int()`-converted label column. -/
def encCol (labels : List ℤ) (j : ℕ) : ℤ :=
  (j : ℤ) * labels.getD j 0 + (if labels.getD j 0 = 0 then -2 else 0)

/-- Row encoding `idxs_2 = partner * y_true + (y_true == 0) * -1` of
`make_target_matrix`, at row `i`. -/
def encRow (labels : List ℤ) (i : ℕ) : ℤ :=
  partnerIdx i * labels.getD i 0 + (if labels.getD i 0 = 0 then -1 else 0)

/-- Embedding of the inner `make_target_matrix(y_true)` of
`in_batch_negative_loss`: `n` is `y_pred.shape[0]` (captured from the
enclosing scope in the source), `y_true` the label column, converted by
`.int()`; entry (i, j) is 1 exactly when the encoded column index equals the
encoded partner index. -/
noncomputable def make_target_matrix (n : ℕ) (y_true : List ℝ) : List (List ℝ) :=
  let labels := y_true.map truncInt
  (List.range n).map (fun i => (List.range n).map (fun j =>
    if encCol labels j = encRow labels i then (1 : ℝ) else 0))

/-- Entrywise matrix sum, modelling tensor `+` on equal-shaped matrices. -/
noncomputable def matAdd (a b : List (List ℝ)) : List (List ℝ) :=
  List.zipWith (List.zipWith (fun x y => x + y)) a b

/-- Row log-softmax `F.log_softmax(t, dim=1)`. -/
noncomputable def log_softmax (l : List ℝ) : List ℝ :=
  l.map (fun x => x - Real.log ((l.map Real.exp).sum))

/-- Embedding of `categorical_crossentropy(y_true, y_pred, from_logits=True)`:
per-row value `-(F.log_softmax(y_pred) * y_true).sum(dim=1)` (the source is
only ever called with `from_logits=True`). -/
noncomputable def categorical_crossentropy (y_true y_pred : List (List ℝ)) : List ℝ :=
  List.zipWith (fun t p => -((List.zipWith (fun x y => x * y) (log_softmax p) t).sum)) y_true y_pred

/-- Mean of a list, modelling `t.mean()`. -/
noncomputable def meanList (xs : List ℝ) : ℝ :=
  xs.sum / xs.length

/-- Embedding of `in_batch_negative_loss(y_true, y_pred, tau, similar_matrix,
negative_weights)`: the positive target matrix (plus the optional similarity
matrix), the scaled self-masked cosine-similarity logits, the purely-negative
mask bonus when `negative_weights > 0`, and the mean categorical
cross-entropy.  The two `make_target_matrix` calls receive `y_true` and the
indicator column `(y_true == 0)` respectively. -/
noncomputable def in_batch_negative_loss (y_true : List ℝ) (y_pred : List (List ℝ)) (tau : ℝ)
    (similar_matrix : Option (List (List ℝ))) (negative_weights : ℝ) : ℝ :=
  let n := y_pred.length
  let neg_mask := make_target_matrix n (y_true.map (fun x => if x = 0 then (1 : ℝ) else 0))
  let target0 := make_target_matrix n y_true
  let target := match similar_matrix with
    | some m => matAdd target0 m
    | none => target0
  let np := y_pred.map normalizeRow
  let sims0 := np.map (fun u => np.map (fun v => dotRow u v))
  let sims1 := (List.range n).map (fun i => (List.range n).map (fun j =>
    ((sims0.getD i []).getD j 0 - (if i = j then (10 : ℝ) ^ 12 else 0)) * tau))
  let sims := if negative_weights > 0 then
      matAdd sims1 (neg_mask.map (List.map (fun x => x * negative_weights)))
    else sims1
  meanList (categorical_crossentropy target sims)

/-- Embedding of `angle_loss(y_true, y_pred, tau)`: each embedding row is
chunked into real/imaginary halves, consecutive rows are combined through the
normalized complex quotient, the absolute summed quotient scaled by `tau` is
the pair's angle score, and the same masked pairwise ranking log-sum-exp as
`cosine_loss` is applied to the scores. -/
noncomputable def angle_loss (y_true : List ℝ) (y_pred : List (List ℝ)) (tau : ℝ) : ℝ :=
  let y := everyOther y_true
  let t := ltMatrix y
  let re := y_pred.map (fun r => r.take ((r.length + 1) / 2))
  let im := y_pred.map (fun r => r.drop ((r.length + 1) / 2))
  let quads := List.zip (List.zip (everyOther re) (everyOther im))
    (List.zip (oddSlice re) (oddSlice im))
  let scores := quads.map (fun q =>
    let av := q.1.1
    let bv := q.1.2
    let cv := q.2.1
    let dv := q.2.2
    let z := (List.zipWith (fun x y => x ^ 2 + y ^ 2) cv dv).sum
    let reV := (List.zipWith (fun x y => x + y)
      (List.zipWith (fun x y => x * y) av cv) (List.zipWith (fun x y => x * y) bv dv)).map
      (fun x => x / z)
    let imV := (List.zipWith (fun x y => x - y)
      (List.zipWith (fun x y => x * y) bv cv) (List.zipWith (fun x y => x * y) av dv)).map
      (fun x => x / z)
    let dz := Real.sqrt ((List.zipWith (fun x y => x ^ 2 + y ^ 2) av bv).sum)
    let dw := Real.sqrt ((List.zipWith (fun x y => x ^ 2 + y ^ 2) cv dv).sum)
    |(reV.map (fun x => x / (dz / dw))).sum + (imV.map (fun x => x / (dz / dw))).sum| * tau)
  let masked := List.zipWith (List.zipWith (fun dd tv => dd - (1 - tv) * 10 ^ 12))
    (pairDiffs scores) t
  logsumexp (0 :: masked.flatten)

/-- Embedding of `AngleLoss.__call__`: starting from `loss = 0.`, each term is
added only when its weight is strictly positive (`if self.w1 > 0: ...`), and
`in_batch_negative_loss` is called with the default `negative_weights = 0`. -/
noncomputable def AngleLoss_call (w1 w2 w3 cosine_tau ibn_tau angle_tau : ℝ)
    (y_true : List ℝ) (y_pred : List (List ℝ)) (similar_matrix : Option (List (List ℝ))) : ℝ :=
  (if w1 > 0 then w1 * cosine_loss y_true y_pred cosine_tau else 0) +
  (if w2 > 0 then w2 * in_batch_negative_loss y_true y_pred ibn_tau similar_matrix 0 else 0) +
  (if w3 > 0 then w3 * angle_loss y_true y_pred angle_tau else 0)

lemma getD_range_map {α : Type} (g : ℕ → α) (d : α) {n i : ℕ} (hi : i < n) :
    ((List.range n).map g).getD i d = g i := by
  rw [List.getD_eq_getElem ((List.range n).map g) d (by simpa using hi)]
  simp

lemma getD_map_of_lt {α β : Type} (f : α → β) (l : List α) (d : α) (db : β) {i : ℕ}
    (hi : i < l.length) : (l.map f).getD i db = f (l.getD i d) := by
  rw [List.getD_eq_getElem (l.map f) db (by simpa using hi), List.getD_eq_getElem l d hi]
  simp

lemma getD_mem_of_lt {α : Type} (l : List α) (d : α) {i : ℕ} (hi : i < l.length) :
    l.getD i d ∈ l := by
  rw [List.getD_eq_getElem l d hi]
  exact List.getElem_mem hi

lemma truncInt_zero : truncInt 0 = 0 := by
  simp [truncInt]

lemma truncInt_one : truncInt 1 = 1 := by
  norm_num [truncInt]

lemma partnerIdx_nonneg (i : ℕ) : 0 ≤ partnerIdx i := by
  unfold partnerIdx
  omega

/-- Target matrix written exactly as the claim states it (spec wording):
entry (i, j) is 1 iff `j` is row `i`'s designated partner and rows `i` and `j`
have the same binary label-presence flag, with both-positive (nonzero label)
and both-negative (label 0) pairs each counting as matching. -/
noncomputable def specTargetMatrix (n : ℕ) (y_true : List ℝ) : List (List ℝ) :=
  (List.range n).map (fun (i : ℕ) => (List.range n).map (fun (j : ℕ) =>
    if ((j : ℤ) = partnerIdx i ∧ (¬ y_true.getD i 0 = 0 ↔ ¬ y_true.getD j 0 = 0)) then (1 : ℝ)
    else 0))

/-- C1 counterexample: for the one-pair batch with labels `[0, 0]` (a
both-negative partner pair) the code's target entry (0, 1) is 0 — the column
sentinel `-2` never equals the row sentinel `-1` — while the claim's target
matrix puts a 1 there. -/
theorem make_target_matrix_counterexample :
    ((make_target_matrix 2 [0, 0]).getD 0 []).getD 1 0 = 0 ∧
    ((specTargetMatrix 2 [0, 0]).getD 0 []).getD 1 0 = 1 := by
  have hr : List.range 2 = [0, 1] := rfl
  constructor
  · rw [make_target_matrix]
    simp only [hr, List.map_cons, List.map_nil, List.getD_cons_zero, List.getD_cons_succ]
    norm_num [encCol, encRow, partnerIdx, truncInt_zero, List.getD_cons_zero,
      List.getD_cons_succ]
  · rw [specTargetMatrix]
    simp only [hr, List.map_cons, List.map_nil, List.getD_cons_zero, List.getD_cons_succ]
    norm_num [partnerIdx, List.getD_cons_zero, List.getD_cons_succ]

/-- C1 (amended): for binary batch labels, the target matrix of
`in_batch_negative_loss` has entry (i, j) equal to 1 exactly when `j` is row
`i`'s designated partner (`i + 1` for even `i`, `i - 1` for odd `i`) AND both
rows' labels are nonzero (both "positive"); both-negative partner pairs do NOT
match, because the zero-label sentinels differ between columns (`-2`) and rows
(`-1`) — those pairs are captured separately by `neg_mask`. -/
theorem make_target_matrix_pairs_positive (y_true : List ℝ)
    (hbin : ∀ x ∈ y_true, x = 0 ∨ x = 1) (i j : ℕ)
    (hi : i < y_true.length) (hj : j < y_true.length) :
    ((make_target_matrix y_true.length y_true).getD i []).getD j 0 =
      if (j : ℤ) = partnerIdx i ∧ y_true.getD i 0 = 1 ∧ y_true.getD j 0 = 1 then 1 else 0 := by
  have hrow : (make_target_matrix y_true.length y_true).getD i [] =
      (List.range y_true.length).map (fun j =>
        if encCol (y_true.map truncInt) j = encRow (y_true.map truncInt) i then (1 : ℝ) else 0) := by
    rw [make_target_matrix]
    exact getD_range_map _ _ hi
  rw [hrow, getD_range_map _ _ hj]
  have hLi : (y_true.map truncInt).getD i 0 = truncInt (y_true.getD i 0) :=
    getD_map_of_lt truncInt y_true 0 0 hi
  have hLj : (y_true.map truncInt).getD j 0 = truncInt (y_true.getD j 0) :=
    getD_map_of_lt truncInt y_true 0 0 hj
  have hpn := partnerIdx_nonneg i
  rcases hbin _ (getD_mem_of_lt y_true 0 hi) with hi0 | hi1 <;>
    rcases hbin _ (getD_mem_of_lt y_true 0 hj) with hj0 | hj1
  · have e1 : encCol (y_true.map truncInt) j = -2 := by
      rw [encCol, hLj, hj0, truncInt_zero]
      norm_num
    have e2 : encRow (y_true.map truncInt) i = -1 := by
      rw [encRow, hLi, hi0, truncInt_zero]
      norm_num
    rw [e1, e2, if_neg (by norm_num), if_neg (by rw [hi0]; exact fun h => absurd h.2.1 (by norm_num))]
  · have e1 : encCol (y_true.map truncInt) j = (j : ℤ) := by
      rw [encCol, hLj, hj1, truncInt_one]
      norm_num
    have e2 : encRow (y_true.map truncInt) i = -1 := by
      rw [encRow, hLi, hi0, truncInt_zero]
      norm_num
    rw [e1, e2, if_neg (by omega), if_neg (by rw [hi0]; exact fun h => absurd h.2.1 (by norm_num))]
  · have e1 : encCol (y_true.map truncInt) j = -2 := by
      rw [encCol, hLj, hj0, truncInt_zero]
      norm_num
    have e2 : encRow (y_true.map truncInt) i = partnerIdx i := by
      rw [encRow, hLi, hi1, truncInt_one]
      norm_num
    rw [e1, e2, if_neg (by omega), if_neg (by rw [hj0]; exact fun h => absurd h.2.2 (by norm_num))]
  · have e1 : encCol (y_true.map truncInt) j = (j : ℤ) := by
      rw [encCol, hLj, hj1, truncInt_one]
      norm_num
    have e2 : encRow (y_true.map truncInt) i = partnerIdx i := by
      rw [encRow, hLi, hi1, truncInt_one]
      norm_num
    rw [e1, e2]
    by_cases hc : (j : ℤ) = partnerIdx i
    · rw [if_pos hc, if_pos ⟨hc, hi1, hj1⟩]
    · rw [if_neg hc, if_neg (fun h => hc h.1)]

/-- Witness for the amended C1 theorem at labels `[1, 1]`, entry (0, 1). -/
theorem make_target_matrix_pairs_positive_witness :
    (∀ x ∈ [(1 : ℝ), 1], x = 0 ∨ x = 1) ∧
    ((make_target_matrix [(1 : ℝ), 1].length [1, 1]).getD 0 []).getD 1 0 =
      if ((1 : ℕ) : ℤ) = partnerIdx 0 ∧ [(1 : ℝ), 1].getD 0 0 = 1 ∧ [(1 : ℝ), 1].getD 1 0 = 1
      then 1 else 0 := by
  refine ⟨?_, make_target_matrix_pairs_positive [1, 1] ?_ 0 1 (by norm_num) (by norm_num)⟩
  · intro x hx
    right
    simpa using hx
  · intro x hx
    right
    simpa using hx

/-- C3: for nonnegative weights, `AngleLoss.__call__` returns the weighted sum
`w1·cosine_loss + w2·in_batch_negative_loss + w3·angle_loss`, each term
entering only through its strict-positivity guard (a zero-weight term is
skipped by the `if`, which coincides with contributing 0 to the sum); in
particular with `w1 = 1, w2 = 0, w3 = 0` the result is exactly
`cosine_loss(labels, embeddings, cosine_tau)`. -/
theorem AngleLoss_weighted_sum :
    (∀ (w1 w2 w3 t1 t2 t3 : ℝ) (y : List ℝ) (p : List (List ℝ)) (s : Option (List (List ℝ))),
      0 ≤ w1 → 0 ≤ w2 → 0 ≤ w3 →
      AngleLoss_call w1 w2 w3 t1 t2 t3 y p s =
        w1 * cosine_loss y p t1 + w2 * in_batch_negative_loss y p t2 s 0 +
          w3 * angle_loss y p t3) ∧
    (∀ (t1 t2 t3 : ℝ) (y : List ℝ) (p : List (List ℝ)) (s : Option (List (List ℝ))),
      AngleLoss_call 1 0 0 t1 t2 t3 y p s = cosine_loss y p t1) := by
  constructor
  · intro w1 w2 w3 t1 t2 t3 y p s h1 h2 h3
    have e1 : (if w1 > 0 then w1 * cosine_loss y p t1 else 0) = w1 * cosine_loss y p t1 := by
      rcases eq_or_lt_of_le h1 with h | h
      · rw [if_neg (by rw [← h]; exact lt_irrefl 0), ← h, zero_mul]
      · rw [if_pos h]
    have e2 : (if w2 > 0 then w2 * in_batch_negative_loss y p t2 s 0 else 0) =
        w2 * in_batch_negative_loss y p t2 s 0 := by
      rcases eq_or_lt_of_le h2 with h | h
      · rw [if_neg (by rw [← h]; exact lt_irrefl 0), ← h, zero_mul]
      · rw [if_pos h]
    have e3 : (if w3 > 0 then w3 * angle_loss y p t3 else 0) = w3 * angle_loss y p t3 := by
      rcases eq_or_lt_of_le h3 with h | h
      · rw [if_neg (by rw [← h]; exact lt_irrefl 0), ← h, zero_mul]
      · rw [if_pos h]
    rw [AngleLoss_call, e1, e2, e3]
  · intro t1 t2 t3 y p s
    rw [AngleLoss_call]
    norm_num

/-- Witness for C3 at concrete weights (1, 1, 0) and a concrete batch. -/
theorem AngleLoss_weighted_sum_witness :
    (0 : ℝ) ≤ 1 ∧
    AngleLoss_call 1 1 0 20 20 1 [0, 1] [[1], [1]] none =
      1 * cosine_loss [0, 1] [[1], [1]] 20 +
        1 * in_batch_negative_loss [0, 1] [[1], [1]] 20 none 0 +
          0 * angle_loss [0, 1] [[1], [1]] 1 :=
  ⟨by norm_num,
    AngleLoss_weighted_sum.1 1 1 0 20 20 1 [0, 1] [[1], [1]] none (by norm_num) (by norm_num)
      (by norm_num)⟩

/-- C10: the guard on each loss term is strict positivity, so a term is
skipped for every weight less than or equal to 0, and a call with all three
weights nonpositive computes no term at all and returns the scalar 0. -/
theorem AngleLoss_guard_strict_positivity :
    ∀ (w1 w2 w3 t1 t2 t3 : ℝ) (y : List ℝ) (p : List (List ℝ)) (s : Option (List (List ℝ))),
      (w1 ≤ 0 → AngleLoss_call w1 w2 w3 t1 t2 t3 y p s = AngleLoss_call 0 w2 w3 t1 t2 t3 y p s) ∧
      (w1 ≤ 0 → w2 ≤ 0 → w3 ≤ 0 → AngleLoss_call w1 w2 w3 t1 t2 t3 y p s = 0) := by
  intro w1 w2 w3 t1 t2 t3 y p s
  constructor
  · intro h1
    rw [AngleLoss_call, AngleLoss_call, if_neg (not_lt.mpr h1), if_neg (lt_irrefl 0)]
  · intro h1 h2 h3
    rw [AngleLoss_call, if_neg (not_lt.mpr h1), if_neg (not_lt.mpr h2), if_neg (not_lt.mpr h3)]
    norm_num

/-- Witness for C10 at weights (-1, 0, -2) and a concrete batch. -/
theorem AngleLoss_guard_strict_positivity_witness :
    (-1 : ℝ) ≤ 0 ∧ AngleLoss_call (-1) 0 (-2) 20 20 1 [0, 1] [[1], [1]] none = 0 :=
  ⟨by norm_num,
    (AngleLoss_guard_strict_positivity (-1) 0 (-2) 20 20 1 [0, 1] [[1], [1]] none).2 (by norm_num)
      (by norm_num) (by norm_num)⟩

/-- One tokenized pair feature entering `AngleDataCollator.__call__`, as
produced by `AngleDataTokenizer.__call__`. -/
structure CollFeature where
  input_ids : List ℤ
  attention_mask : List ℤ
  token_type_ids : Option (List ℤ)
  labels : List ℤ
  seperate_ids : List ℤ
  deriving DecidableEq

/-- One split row of the collated batch (the unpadded `new_feature` dicts;
padding is performed afterwards by the external `tokenizer.pad`). -/
structure CollRow where
  input_ids : List ℤ
  attention_mask : List ℤ
  token_type_ids : Option (List ℤ)
  labels : List ℤ
  deriving DecidableEq

/-- Default row used for out-of-range `getD` access. -/
def emptyRow : CollRow :=
  ⟨[], [], none, []⟩

/-- Error outcomes of the collator: the length asserts (Python
`AssertionError`) and the missing-separator lookup (Python `ValueError` from
`list.index`). -/
inductive CollError where
  | lengthMismatch
  | noSeparator
  deriving DecidableEq

/-- Position of the first occurrence of 1, modelling `seperate_ids.index(1)`
(meaningful only when a 1 occurs; the caller guards that case). -/
def indexOfOne : List ℤ → ℕ
  | [] => 0
  | x :: rest => if x = 1 then 0 else indexOfOne rest + 1

/-- Boolean for the `token_type_ids` length assert, vacuous when absent. -/
def tokenTypeOk (f : CollFeature) : Bool :=
  match f.token_type_ids with
  | none => true
  | some t => t.length = f.input_ids.length

/-- Row for `text1`: every parallel sequence is cut before the first
`seperate_ids` entry equal to 1, and the feature's labels are carried. -/
def text1Row (f : CollFeature) : CollRow :=
  let k := indexOfOne f.seperate_ids
  ⟨f.input_ids.take k, f.attention_mask.take k, f.token_type_ids.map (List.take k), f.labels⟩

/-- Row for `text2`: the rest of every parallel sequence, with the same
labels. -/
def text2Row (f : CollFeature) : CollRow :=
  let k := indexOfOne f.seperate_ids
  ⟨f.input_ids.drop k, f.attention_mask.drop k, f.token_type_ids.map (List.drop k), f.labels⟩

/-- Per-feature body of `AngleDataCollator.__call__`: the length asserts
(fatal on violation), the `seperate_ids.index(1)` lookup (raising when no 1
occurs), and the split into the text1 and text2 rows. -/
def splitFeature (f : CollFeature) : Except CollError (CollRow × CollRow) :=
  if f.seperate_ids.length = f.input_ids.length ∧ f.input_ids.length = f.attention_mask.length then
    if tokenTypeOk f then
      if (1 : ℤ) ∈ f.seperate_ids then Except.ok (text1Row f, text2Row f)
      else Except.error CollError.noSeparator
    else Except.error CollError.lengthMismatch
  else Except.error CollError.lengthMismatch

/-- Feature precondition under which the splitting step succeeds. -/
def ValidFeature (f : CollFeature) : Prop :=
  (f.seperate_ids.length = f.input_ids.length ∧ f.input_ids.length = f.attention_mask.length) ∧
    tokenTypeOk f = true ∧ (1 : ℤ) ∈ f.seperate_ids

/-- The collator's feature loop: rows for record `i` are appended at
positions `2i` and `2i + 1`; the first error aborts the batch. -/
def collateRows : List CollFeature → Except CollError (List CollRow)
  | [] => Except.ok []
  | f :: rest =>
    match splitFeature f with
    | Except.error e => Except.error e
    | Except.ok rr =>
      match collateRows rest with
      | Except.error e => Except.error e
      | Except.ok rs => Except.ok (rr.1 :: rr.2 :: rs)

/-- One `batch_text_set[tuple(input_ids)].append(pos)` on the `defaultdict`:
the position is appended to the group of its exact key, a fresh group being
created at the end when the key is new. -/
def groupInsert (key : List ℤ) (pos : ℕ) : List (List ℤ × List ℕ) → List (List ℤ × List ℕ)
  | [] => [(key, [pos])]
  | g :: rest => if g.1 = key then (g.1, g.2 ++ [pos]) :: rest else g :: groupInsert key pos rest

/-- Fold of `groupInsert` over keys with consecutive positions from `p`. -/
def buildGroupsAux (p : ℕ) (keys : List (List ℤ)) (acc : List (List ℤ × List ℕ)) :
    List (List ℤ × List ℕ) :=
  match keys with
  | [] => acc
  | k :: rest => buildGroupsAux (p + 1) rest (groupInsert k p acc)

/-- The `batch_text_set` mapping: row positions 0, 1, 2, ... grouped under
their exact unpadded `input_ids` sequence, in insertion order. -/
def batchTextSet (rows : List CollRow) : List (List ℤ × List ℕ) :=
  buildGroupsAux 0 (rows.map (fun r => r.input_ids)) []

/-- The collator's `similar_matrix`: starting from `np.zeros((2N, 2N))`, when
the flag is on the group loops set entry (i, j) to 1 exactly for distinct
positions `i ≠ j` lying in one common group of `batch_text_set`. -/
def similar_matrix_of (compute_similar_matrix : Bool) (rows : List CollRow) : List (List ℝ) :=
  let n := rows.length
  if compute_similar_matrix then
    (List.range n).map (fun (i : ℕ) => (List.range n).map (fun (j : ℕ) =>
      if ¬ i = j ∧ ∃ g ∈ batchTextSet rows, i ∈ g.2 ∧ j ∈ g.2 then (1 : ℝ) else 0))
  else (List.range n).map (fun _ => (List.range n).map (fun _ => (0 : ℝ)))

/-- Collated batch before the external padding step: the split rows, the
stacked labels column, and the similarity matrix. -/
structure CollBatch where
  rows : List CollRow
  labels : List (List ℤ)
  similar_matrix : List (List ℝ)

/-- Embedding of `AngleDataCollator.__call__` up to the external
`tokenizer.pad` reshaping: the split rows (in record order), the labels
column `[feature['labels'] for feature in new_features]`, and the similarity
matrix. -/
def AngleDataCollator_call (compute_similar_matrix : Bool) (features : List CollFeature) :
    Except CollError CollBatch :=
  match collateRows features with
  | Except.error e => Except.error e
  | Except.ok rows =>
    Except.ok { rows := rows, labels := rows.map (fun r => r.labels),
                similar_matrix := similar_matrix_of compute_similar_matrix rows }
lemma splitFeature_ok_iff (f : CollFeature) (rr : CollRow × CollRow) :
    splitFeature f = Except.ok rr ↔ ValidFeature f ∧ rr = (text1Row f, text2Row f) := by
  rw [splitFeature, ValidFeature]
  split_ifs with h1 h2 h3
  · constructor
    · intro hok
      cases hok
      exact ⟨⟨h1, h2, h3⟩, rfl⟩
    · rintro ⟨-, hrr⟩
      rw [hrr]
  · constructor
    · intro hok
      exact absurd hok (by simp)
    · rintro ⟨⟨-, -, hh3⟩, -⟩
      exact absurd hh3 h3
  · constructor
    · intro hok
      exact absurd hok (by simp)
    · rintro ⟨⟨-, hh2, -⟩, -⟩
      exact absurd hh2 h2
  · constructor
    · intro hok
      exact absurd hok (by simp)
    · rintro ⟨⟨hh1, -, -⟩, -⟩
      exact absurd hh1 h1

lemma indexOfOne_spec : ∀ (l : List ℤ), (1 : ℤ) ∈ l →
    indexOfOne l < l.length ∧ l.getD (indexOfOne l) 0 = 1 ∧
      ∀ j < indexOfOne l, l.getD j 0 ≠ 1
  | [], h => absurd h (List.not_mem_nil 1)
  | x :: rest, h => by
    rw [indexOfOne]
    by_cases hx : x = 1
    · rw [if_pos hx]
      exact ⟨by simp, by simp [hx], fun j hj => absurd hj (by omega)⟩
    · rw [if_neg hx]
      have hmem : (1 : ℤ) ∈ rest := by
        rcases List.mem_cons.mp h with h' | h'
        · exact absurd h'.symm hx
        · exact h'
      obtain ⟨h1, h2, h3⟩ := indexOfOne_spec rest hmem
      refine ⟨by simp only [List.length_cons]; omega, by simpa using h2, ?_⟩
      intro j hj
      cases j with
      | zero => simpa using hx
      | succ m =>
        rw [List.getD_cons_succ]
        exact h3 m (by omega)

lemma collateRows_spec : ∀ (fs : List CollFeature) (rows : List CollRow),
    collateRows fs = Except.ok rows →
    rows.length = 2 * fs.length ∧
    ∀ i (h : i < fs.length),
      rows.getD (2 * i) emptyRow = text1Row (fs.get ⟨i, h⟩) ∧
      rows.getD (2 * i + 1) emptyRow = text2Row (fs.get ⟨i, h⟩)
  | [], rows, h => by
    rw [collateRows] at h
    have : rows = [] := by
      cases h
      rfl
    subst this
    exact ⟨rfl, fun i hi => by simp at hi⟩
  | f :: rest, rows, h => by
    rw [collateRows] at h
    cases hf : splitFeature f with
    | error e => rw [hf] at h; exact absurd h (by simp)
    | ok rr =>
      rw [hf] at h
      cases hrest : collateRows rest with
      | error e => rw [hrest] at h; exact absurd h (by simp)
      | ok rs =>
        rw [hrest] at h
        have hrows : rows = rr.1 :: rr.2 :: rs := by
          cases h
          rfl
        obtain ⟨ihlen, ihget⟩ := collateRows_spec rest rs hrest
        obtain ⟨-, hrr⟩ := (splitFeature_ok_iff f rr).mp hf
        subst hrows
        subst hrr
        refine ⟨by simp only [List.length_cons, ihlen]; omega, ?_⟩
        intro i hi
        cases i with
        | zero => exact ⟨rfl, rfl⟩
        | succ m =>
          have hm : m < rest.length := by
            simp only [List.length_cons] at hi
            omega
          have e1 : 2 * (m + 1) = 2 * m + 1 + 1 := by ring
          rw [e1]
          simp only [List.getD_cons_succ, List.get_cons_succ]
          exact ihget m hm

lemma collateRows_isOk_false : ∀ (fs : List CollFeature),
    (∃ f ∈ fs, ¬ (1 : ℤ) ∈ f.seperate_ids) →
    ∀ rows, ¬ collateRows fs = Except.ok rows
  | [], h => by
    obtain ⟨f, hf, -⟩ := h
    exact absurd hf (List.not_mem_nil f)
  | f :: rest, h => by
    intro rows hok
    rw [collateRows] at hok
    cases hf : splitFeature f with
    | error e => rw [hf] at hok; exact absurd hok (by simp)
    | ok rr =>
      rw [hf] at hok
      cases hrest : collateRows rest with
      | error e => rw [hrest] at hok; exact absurd hok (by simp)
      | ok rs =>
        obtain ⟨g, hg, hgbad⟩ := h
        rcases List.mem_cons.mp hg with h' | h'
        · subst h'
          obtain ⟨⟨-, -, h1mem⟩, -⟩ := (splitFeature_ok_iff g rr).mp hf
          exact hgbad h1mem
        · exact collateRows_isOk_false rest ⟨g, h', hgbad⟩ rs hrest

lemma collateRows_total : ∀ (fs : List CollFeature),
    (∀ f ∈ fs, ValidFeature f) → ∃ rows, collateRows fs = Except.ok rows
  | [], _ => ⟨[], rfl⟩
  | f :: rest, h => by
    obtain ⟨rs, hrs⟩ := collateRows_total rest (fun g hg => h g (List.mem_cons_of_mem f hg))
    have hok : splitFeature f = Except.ok (text1Row f, text2Row f) :=
      (splitFeature_ok_iff f _).mpr ⟨h f (List.mem_cons_self f rest), rfl⟩
    exact ⟨text1Row f :: text2Row f :: rs, by rw [collateRows, hok, hrs]⟩

lemma inGroup_groupInsert :
    ∀ (gs : List (List ℤ × List ℕ)) (key : List ℤ) (pos : ℕ) (k : List ℤ) (q : ℕ),
      (∃ g ∈ groupInsert key pos gs, g.1 = k ∧ q ∈ g.2) ↔
      ((∃ g ∈ gs, g.1 = k ∧ q ∈ g.2) ∨ (k = key ∧ q = pos))
  | [], key, pos, k, q => by
    simp only [groupInsert, List.mem_singleton, List.not_mem_nil]
    constructor
    · rintro ⟨g, hg, hk, hq⟩
      subst hg
      simp only [List.mem_singleton] at hq
      exact Or.inr ⟨hk.symm, hq⟩
    · rintro (⟨g, hg, -⟩ | ⟨hk, hq⟩)
      · simp at hg
      · exact ⟨(key, [pos]), rfl, hk.symm, by simp [hq]⟩
  | g0 :: rest, key, pos, k, q => by
    rw [groupInsert]
    by_cases hg0 : g0.1 = key
    · rw [if_pos hg0]
      constructor
      · rintro ⟨g, hg, hk, hq⟩
        rcases List.mem_cons.mp hg with h' | h'
        · subst h'
          simp only at hk hq
          rcases List.mem_append.mp hq with h2 | h2
          · exact Or.inl ⟨g0, List.mem_cons_self g0 rest, hk, h2⟩
          · simp only [List.mem_singleton] at h2
            exact Or.inr ⟨by rw [← hk, hg0], h2⟩
        · exact Or.inl ⟨g, List.mem_cons_of_mem g0 h', hk, hq⟩
      · rintro (⟨g, hg, hk, hq⟩ | ⟨hk, hq⟩)
        · rcases List.mem_cons.mp hg with h' | h'
          · subst h'
            exact ⟨(g.1, g.2 ++ [pos]), List.mem_cons_self _ _, hk, List.mem_append_left _ hq⟩
          · exact ⟨g, List.mem_cons_of_mem _ h', hk, hq⟩
        · exact ⟨(g0.1, g0.2 ++ [pos]), List.mem_cons_self _ _, by rw [hg0, ← hk],
            by simp [hq]⟩
    · rw [if_neg hg0]
      constructor
      · rintro ⟨g, hg, hk, hq⟩
        rcases List.mem_cons.mp hg with h' | h'
        · exact Or.inl ⟨g, List.mem_cons.mpr (Or.inl h'), hk, hq⟩
        · rcases (inGroup_groupInsert rest key pos k q).mp ⟨g, h', hk, hq⟩ with h2 | h2
          · obtain ⟨g2, hg2, hk2, hq2⟩ := h2
            exact Or.inl ⟨g2, List.mem_cons_of_mem g0 hg2, hk2, hq2⟩
          · exact Or.inr h2
      · rintro (⟨g, hg, hk, hq⟩ | ⟨hk, hq⟩)
        · rcases List.mem_cons.mp hg with h' | h'
          · exact ⟨g, List.mem_cons.mpr (Or.inl h'), hk, hq⟩
          · obtain ⟨g2, hg2, hk2, hq2⟩ :=
              (inGroup_groupInsert rest key pos k q).mpr (Or.inl ⟨g, h', hk, hq⟩)
            exact ⟨g2, List.mem_cons_of_mem g0 hg2, hk2, hq2⟩
        · obtain ⟨g2, hg2, hk2, hq2⟩ :=
            (inGroup_groupInsert rest key pos k q).mpr (Or.inr ⟨hk, hq⟩)
          exact ⟨g2, List.mem_cons_of_mem g0 hg2, hk2, hq2⟩

lemma inGroup_buildGroupsAux :
    ∀ (keys : List (List ℤ)) (p : ℕ) (acc : List (List ℤ × List ℕ)) (k : List ℤ) (q : ℕ),
      (∃ g ∈ buildGroupsAux p keys acc, g.1 = k ∧ q ∈ g.2) ↔
      ((∃ g ∈ acc, g.1 = k ∧ q ∈ g.2) ∨
        ∃ m, m < keys.length ∧ q = p + m ∧ keys.getD m [] = k)
  | [], p, acc, k, q => by
    rw [buildGroupsAux]
    simp
  | key :: rest, p, acc, k, q => by
    rw [buildGroupsAux]
    rw [inGroup_buildGroupsAux rest (p + 1) (groupInsert key p acc) k q,
      inGroup_groupInsert acc key p k q]
    constructor
    · rintro ((h | ⟨hk, hq⟩) | ⟨m, hm, hq, hkey⟩)
      · exact Or.inl h
      · exact Or.inr ⟨0, by simp, by omega, by simpa using hk.symm⟩
      · exact Or.inr ⟨m + 1, by simpa using hm, by omega, by simpa using hkey⟩
    · rintro (h | ⟨m, hm, hq, hkey⟩)
      · exact Or.inl (Or.inl h)
      · cases m with
        | zero =>
          refine Or.inl (Or.inr ⟨?_, by omega⟩)
          simp only [List.getD_cons_zero] at hkey
          exact hkey.symm
        | succ m' =>
          refine Or.inr ⟨m', by simpa using hm, by omega, ?_⟩
          simpa using hkey

lemma keys_groupInsert :
    ∀ (gs : List (List ℤ × List ℕ)) (key : List ℤ) (pos : ℕ),
      (groupInsert key pos gs).map Prod.fst =
        if key ∈ gs.map Prod.fst then gs.map Prod.fst else gs.map Prod.fst ++ [key]
  | [], key, pos => by simp [groupInsert]
  | g0 :: rest, key, pos => by
    rw [groupInsert]
    by_cases hg0 : g0.1 = key
    · rw [if_pos hg0]
      have : key ∈ (g0 :: rest).map Prod.fst := by
        rw [← hg0]
        exact List.mem_map_of_mem Prod.fst (List.mem_cons_self g0 rest)
      rw [if_pos this]
      simp
    · rw [if_neg hg0]
      have hiff : key ∈ (g0 :: rest).map Prod.fst ↔ key ∈ rest.map Prod.fst := by
        simp only [List.map_cons, List.mem_cons]
        constructor
        · rintro (h | h)
          · exact absurd h.symm hg0
          · exact h
        · exact Or.inr
      rw [List.map_cons, keys_groupInsert rest key pos]
      by_cases hmem : key ∈ rest.map Prod.fst
      · rw [if_pos hmem, if_pos (hiff.mpr hmem), List.map_cons]
      · rw [if_neg hmem, if_neg (fun h => hmem (hiff.mp h)), List.map_cons, List.cons_append]

lemma nodup_keys_groupInsert (gs : List (List ℤ × List ℕ)) (key : List ℤ) (pos : ℕ)
    (h : (gs.map Prod.fst).Nodup) : ((groupInsert key pos gs).map Prod.fst).Nodup := by
  rw [keys_groupInsert]
  split_ifs with hmem
  · exact h
  · rw [List.nodup_append]
    exact ⟨h, List.nodup_singleton key, by simpa using hmem⟩

lemma nodup_keys_buildGroupsAux :
    ∀ (keys : List (List ℤ)) (p : ℕ) (acc : List (List ℤ × List ℕ)),
      (acc.map Prod.fst).Nodup → ((buildGroupsAux p keys acc).map Prod.fst).Nodup
  | [], _, _, h => h
  | key :: rest, p, acc, h =>
    nodup_keys_buildGroupsAux rest (p + 1) (groupInsert key p acc)
      (nodup_keys_groupInsert acc key p h)

lemma eq_of_mem_keys_nodup :
    ∀ (gs : List (List ℤ × List ℕ)), (gs.map Prod.fst).Nodup →
      ∀ g ∈ gs, ∀ g' ∈ gs, g.1 = g'.1 → g = g'
  | [], _, g, hg, _, _, _ => absurd hg (List.not_mem_nil g)
  | g0 :: rest, h, g, hg, g', hg', hk => by
    rw [List.map_cons, List.nodup_cons] at h
    rcases List.mem_cons.mp hg with h1 | h1 <;> rcases List.mem_cons.mp hg' with h2 | h2
    · rw [h1, h2]
    · subst h1
      exact absurd (hk ▸ List.mem_map_of_mem Prod.fst h2) h.1
    · subst h2
      exact absurd (hk ▸ List.mem_map_of_mem Prod.fst h1) (by simpa using h.1)
    · exact eq_of_mem_keys_nodup rest h.2 g h1 g' h2 hk

lemma sameGroup_iff (rows : List CollRow) (i j : ℕ) :
    (∃ g ∈ batchTextSet rows, i ∈ g.2 ∧ j ∈ g.2) ↔
    (i < rows.length ∧ j < rows.length ∧
      (rows.getD i emptyRow).input_ids = (rows.getD j emptyRow).input_ids) := by
  have hlen : (rows.map (fun r => r.input_ids)).length = rows.length := List.length_map _ _
  constructor
  · rintro ⟨g, hg, hi, hj⟩
    have hgi : ∃ g' ∈ batchTextSet rows, g'.1 = g.1 ∧ i ∈ g'.2 := ⟨g, hg, rfl, hi⟩
    have hgj : ∃ g' ∈ batchTextSet rows, g'.1 = g.1 ∧ j ∈ g'.2 := ⟨g, hg, rfl, hj⟩
    rw [batchTextSet, inGroup_buildGroupsAux] at hgi hgj
    rcases hgi with hgi | ⟨m, hm, hq, hkey⟩
    · simp at hgi
    · rcases hgj with hgj | ⟨m', hm', hq', hkey'⟩
      · simp at hgj
      · have hi' : i < rows.length := by omega
        have hj' : j < rows.length := by omega
        refine ⟨hi', hj', ?_⟩
        have e1 : (rows.map (fun r => r.input_ids)).getD i [] =
            (rows.getD i emptyRow).input_ids := getD_map_of_lt _ rows emptyRow [] hi'
        have e2 : (rows.map (fun r => r.input_ids)).getD j [] =
            (rows.getD j emptyRow).input_ids := getD_map_of_lt _ rows emptyRow [] hj'
        have hqi : m = i := by omega
        have hqj : m' = j := by omega
        subst hqi
        subst hqj
        rw [← e1, ← e2, hkey, hkey']
  · rintro ⟨hi, hj, heq⟩
    have e1 : (rows.map (fun r => r.input_ids)).getD i [] =
        (rows.getD i emptyRow).input_ids := getD_map_of_lt _ rows emptyRow [] hi
    have e2 : (rows.map (fun r => r.input_ids)).getD j [] =
        (rows.getD j emptyRow).input_ids := getD_map_of_lt _ rows emptyRow [] hj
    have hgi : ∃ g ∈ batchTextSet rows, g.1 = (rows.getD i emptyRow).input_ids ∧ i ∈ g.2 := by
      rw [batchTextSet, inGroup_buildGroupsAux]
      exact Or.inr ⟨i, by omega, by omega, e1⟩
    have hgj : ∃ g ∈ batchTextSet rows, g.1 = (rows.getD i emptyRow).input_ids ∧ j ∈ g.2 := by
      rw [batchTextSet, inGroup_buildGroupsAux]
      exact Or.inr ⟨j, by omega, by omega, by rw [e2, heq]⟩
    obtain ⟨g, hg, hk, hqi⟩ := hgi
    obtain ⟨g', hg', hk', hqj⟩ := hgj
    have hnodup : ((batchTextSet rows).map Prod.fst).Nodup :=
      nodup_keys_buildGroupsAux _ 0 [] (by simp)
    have : g = g' := eq_of_mem_keys_nodup _ hnodup g hg g' hg' (by rw [hk, hk'])
    exact ⟨g, hg, hqi, this ▸ hqj⟩
lemma collator_call_ok (c : Bool) (fs : List CollFeature) (b : CollBatch)
    (h : AngleDataCollator_call c fs = Except.ok b) :
    collateRows fs = Except.ok b.rows ∧ b.labels = b.rows.map (fun r => r.labels) ∧
      b.similar_matrix = similar_matrix_of c b.rows := by
  rw [AngleDataCollator_call] at h
  cases hr : collateRows fs with
  | error e => rw [hr] at h; exact absurd h (by simp)
  | ok rows =>
    rw [hr] at h
    have hb : b = CollBatch.mk rows (rows.map (fun r => r.labels)) (similar_matrix_of c rows) :=
      (Except.ok.inj h).symm
    subst hb
    exact ⟨rfl, rfl, rfl⟩

lemma similar_matrix_entry_true (rows : List CollRow) {i j : ℕ}
    (hi : i < rows.length) (hj : j < rows.length) :
    ((similar_matrix_of true rows).getD i []).getD j 0 =
      if ¬ i = j ∧ ∃ g ∈ batchTextSet rows, i ∈ g.2 ∧ j ∈ g.2 then (1 : ℝ) else 0 := by
  rw [similar_matrix_of, if_pos rfl, getD_range_map _ _ hi, getD_range_map _ _ hj]

lemma similar_matrix_length (c : Bool) (rows : List CollRow) :
    (similar_matrix_of c rows).length = rows.length := by
  rw [similar_matrix_of]
  cases c
  · rw [if_neg Bool.false_ne_true]
    simp
  · rw [if_pos rfl]
    simp

lemma similar_matrix_row_length (c : Bool) (rows : List CollRow) {i : ℕ}
    (hi : i < rows.length) : ((similar_matrix_of c rows).getD i []).length = rows.length := by
  rw [similar_matrix_of]
  cases c
  · rw [if_neg Bool.false_ne_true, getD_range_map _ _ hi]
    simp
  · rw [if_pos rfl, getD_range_map _ _ hi]
    simp

lemma similar_matrix_entry_false (rows : List CollRow) (i j : ℕ) :
    ((similar_matrix_of false rows).getD i []).getD j 0 = 0 := by
  by_cases hi : i < rows.length
  · by_cases hj : j < rows.length
    · rw [similar_matrix_of, if_neg Bool.false_ne_true, getD_range_map _ _ hi,
        getD_range_map _ _ hj]
    · exact List.getD_eq_default _ _
        (by rw [similar_matrix_row_length false rows hi]; omega)
  · have hout : (similar_matrix_of false rows).getD i [] = [] :=
      List.getD_eq_default _ _ (by rw [similar_matrix_length false rows]; omega)
    rw [hout]
    simp

lemma similar_matrix_entry_oob (c : Bool) (rows : List CollRow) {i j : ℕ}
    (h : rows.length ≤ i ∨ rows.length ≤ j) :
    ((similar_matrix_of c rows).getD i []).getD j 0 = 0 := by
  by_cases hi : i < rows.length
  · rcases h with h | h
    · omega
    · exact List.getD_eq_default _ _ (by rw [similar_matrix_row_length c rows hi]; omega)
  · have hout : (similar_matrix_of c rows).getD i [] = [] :=
      List.getD_eq_default _ _ (by rw [similar_matrix_length c rows]; omega)
    rw [hout]
    simp

/-- C4: for every batch the collator produces, the similarity matrix is
symmetric with zero diagonal; with the flag on, an in-range entry is 1 exactly
when the two distinct row positions hold token-for-token identical unpadded
`input_ids`; with the flag off every entry is 0. -/
theorem collator_similarity_mask_spec :
    ∀ (c : Bool) (fs : List CollFeature) (b : CollBatch),
      AngleDataCollator_call c fs = Except.ok b →
      (∀ i j, (b.similar_matrix.getD i []).getD j 0 = (b.similar_matrix.getD j []).getD i 0) ∧
      (∀ i, (b.similar_matrix.getD i []).getD i 0 = 0) ∧
      (∀ i j, i < b.rows.length → j < b.rows.length →
        ((b.similar_matrix.getD i []).getD j 0 = 1 ↔
          c = true ∧ ¬ i = j ∧
            (b.rows.getD i emptyRow).input_ids = (b.rows.getD j emptyRow).input_ids)) ∧
      (c = false → ∀ i j, (b.similar_matrix.getD i []).getD j 0 = 0) := by
  intro c fs b hok
  obtain ⟨-, -, hsm⟩ := collator_call_ok c fs b hok
  rw [hsm]
  refine ⟨?_, ?_, ?_, ?_⟩
  · intro i j
    by_cases hi : i < b.rows.length
    · by_cases hj : j < b.rows.length
      · cases c
        · rw [similar_matrix_entry_false, similar_matrix_entry_false]
        · have hcond : (¬ i = j ∧ ∃ g ∈ batchTextSet b.rows, i ∈ g.2 ∧ j ∈ g.2) ↔
              (¬ j = i ∧ ∃ g ∈ batchTextSet b.rows, j ∈ g.2 ∧ i ∈ g.2) := by
            constructor <;> rintro ⟨hne, g, hg, h1, h2⟩ <;>
              exact ⟨fun hh => hne hh.symm, g, hg, h2, h1⟩
          rw [similar_matrix_entry_true b.rows hi hj, similar_matrix_entry_true b.rows hj hi,
            if_congr hcond rfl rfl]
      · rw [similar_matrix_entry_oob c b.rows (Or.inr (by omega)),
          similar_matrix_entry_oob c b.rows (Or.inl (by omega))]
    · rw [similar_matrix_entry_oob c b.rows (Or.inl (by omega)),
        similar_matrix_entry_oob c b.rows (Or.inr (by omega))]
  · intro i
    by_cases hi : i < b.rows.length
    · cases c
      · rw [similar_matrix_entry_false]
      · rw [similar_matrix_entry_true b.rows hi hi, if_neg]
        rintro ⟨hne, -⟩
        exact hne rfl
    · rw [similar_matrix_entry_oob c b.rows (Or.inl (by omega))]
  · intro i j hi hj
    cases c
    · rw [similar_matrix_entry_false]
      constructor
      · intro h
        exact absurd h (by norm_num)
      · rintro ⟨h, -⟩
        exact absurd h (by simp)
    · rw [similar_matrix_entry_true b.rows hi hj]
      have hcond : (¬ i = j ∧ ∃ g ∈ batchTextSet b.rows, i ∈ g.2 ∧ j ∈ g.2) ↔
          (¬ i = j ∧ (b.rows.getD i emptyRow).input_ids = (b.rows.getD j emptyRow).input_ids) := by
        constructor
        · rintro ⟨h1, h2⟩
          obtain ⟨-, -, h3⟩ := (sameGroup_iff b.rows i j).mp h2
          exact ⟨h1, h3⟩
        · rintro ⟨h1, h2⟩
          exact ⟨h1, (sameGroup_iff b.rows i j).mpr ⟨hi, hj, h2⟩⟩
      constructor
      · intro h
        by_cases hc : ¬ i = j ∧ ∃ g ∈ batchTextSet b.rows, i ∈ g.2 ∧ j ∈ g.2
        · exact ⟨rfl, hcond.mp hc⟩
        · rw [if_neg hc] at h
          exact absurd h (by norm_num)
      · rintro ⟨-, h2⟩
        rw [if_pos (hcond.mpr h2)]
  · intro hc
    subst hc
    intro i j
    exact similar_matrix_entry_false b.rows i j

/-- Witness for C4: a two-record batch whose text1 sequences coincide; the
mask entry (0, 2) is 1 and characterized by the theorem's equivalence. -/
theorem collator_similarity_mask_spec_witness :
    AngleDataCollator_call true
        [(⟨[5, 6], [1, 1], none, [1], [0, 1]⟩ : CollFeature),
         (⟨[5, 7], [1, 1], none, [0], [0, 1]⟩ : CollFeature)] =
      Except.ok
        (⟨[⟨[5], [1], none, [1]⟩, ⟨[6], [1], none, [1]⟩, ⟨[5], [1], none, [0]⟩,
            ⟨[7], [1], none, [0]⟩], [[1], [1], [0], [0]],
          [[0, 0, 1, 0], [0, 0, 0, 0], [1, 0, 0, 0], [0, 0, 0, 0]]⟩ : CollBatch) ∧
    (((⟨[⟨[5], [1], none, [1]⟩, ⟨[6], [1], none, [1]⟩, ⟨[5], [1], none, [0]⟩,
          ⟨[7], [1], none, [0]⟩], [[1], [1], [0], [0]],
        [[0, 0, 1, 0], [0, 0, 0, 0], [1, 0, 0, 0], [0, 0, 0, 0]]⟩ : CollBatch).similar_matrix.getD
          0 []).getD 2 0 = 1 ↔
      true = true ∧ ¬ (0 : ℕ) = 2 ∧
        (([⟨[5], [1], none, [1]⟩, ⟨[6], [1], none, [1]⟩, ⟨[5], [1], none, [0]⟩,
            ⟨[7], [1], none, [0]⟩] : List CollRow).getD 0 emptyRow).input_ids =
          (([⟨[5], [1], none, [1]⟩, ⟨[6], [1], none, [1]⟩, ⟨[5], [1], none, [0]⟩,
              ⟨[7], [1], none, [0]⟩] : List CollRow).getD 2 emptyRow).input_ids) := by
  constructor
  · rfl
  · exact (collator_similarity_mask_spec true
      [⟨[5, 6], [1, 1], none, [1], [0, 1]⟩, ⟨[5, 7], [1, 1], none, [0], [0, 1]⟩] _ rfl).2.2.1 0 2
      (by norm_num) (by norm_num)

/-- C5: every successfully collated batch of N features has exactly 2N rows;
row 2i is record i's text1 row (the prefix of each parallel sequence before
the first `seperate_ids` entry equal to 1), row 2i+1 is record i's text2 row
(the rest), and both rows carry record i's labels. -/
theorem collator_rows_ordering :
    ∀ (c : Bool) (fs : List CollFeature) (b : CollBatch),
      AngleDataCollator_call c fs = Except.ok b →
      b.rows.length = 2 * fs.length ∧
      b.labels = b.rows.map (fun r => r.labels) ∧
      ∀ i (h : i < fs.length),
        b.rows.getD (2 * i) emptyRow = text1Row (fs.get ⟨i, h⟩) ∧
        b.rows.getD (2 * i + 1) emptyRow = text2Row (fs.get ⟨i, h⟩) ∧
        (b.rows.getD (2 * i) emptyRow).labels = (fs.get ⟨i, h⟩).labels ∧
        (b.rows.getD (2 * i + 1) emptyRow).labels = (fs.get ⟨i, h⟩).labels := by
  intro c fs b hok
  obtain ⟨hrows, hlabels, -⟩ := collator_call_ok c fs b hok
  obtain ⟨hlen, hget⟩ := collateRows_spec fs b.rows hrows
  refine ⟨hlen, hlabels, ?_⟩
  intro i h
  obtain ⟨h1, h2⟩ := hget i h
  exact ⟨h1, h2, by rw [h1]; rfl, by rw [h2]; rfl⟩

/-- Witness for C5 at a concrete one-record batch. -/
theorem collator_rows_ordering_witness :
    AngleDataCollator_call true [(⟨[5, 6], [1, 1], none, [1], [0, 1]⟩ : CollFeature)] =
      Except.ok
        (⟨[⟨[5], [1], none, [1]⟩, ⟨[6], [1], none, [1]⟩], [[1], [1]],
          [[0, 0], [0, 0]]⟩ : CollBatch) ∧
    (⟨[⟨[5], [1], none, [1]⟩, ⟨[6], [1], none, [1]⟩], [[1], [1]],
        [[0, 0], [0, 0]]⟩ : CollBatch).rows.length = 2 * 1 := by
  constructor
  · rfl
  · exact (collator_rows_ordering true [⟨[5, 6], [1, 1], none, [1], [0, 1]⟩] _ rfl).1

/-- Boolean success test on an `Except` outcome. -/
def collOk {ε α : Type} : Except ε α → Bool
  | Except.ok _ => true
  | Except.error _ => false

/-- C9: the collator's splitting step is total only when every feature's
`seperate_ids` contains a 1 — a feature without any 1 makes the whole call
error out instead of producing a batch (Python `ValueError` from
`list.index`) — and under the validity precondition the call succeeds, the
split position `indexOfOne` being exactly the position of the first 1. -/
theorem collator_split_totality :
    (∀ (c : Bool) (fs : List CollFeature),
      (∃ f ∈ fs, ¬ (1 : ℤ) ∈ f.seperate_ids) →
        collOk (AngleDataCollator_call c fs) = false) ∧
    (∀ (c : Bool) (fs : List CollFeature),
      (∀ f ∈ fs, ValidFeature f) → collOk (AngleDataCollator_call c fs) = true) ∧
    (∀ l : List ℤ, (1 : ℤ) ∈ l →
      indexOfOne l < l.length ∧ l.getD (indexOfOne l) 0 = 1 ∧
        ∀ j < indexOfOne l, l.getD j 0 ≠ 1) := by
  refine ⟨?_, ?_, indexOfOne_spec⟩
  · intro c fs hbad
    cases hcall : AngleDataCollator_call c fs with
    | error e => rfl
    | ok b =>
      obtain ⟨hrows, -, -⟩ := collator_call_ok c fs b hcall
      exact absurd hrows (collateRows_isOk_false fs hbad b.rows)
  · intro c fs hvalid
    obtain ⟨rows, hrows⟩ := collateRows_total fs hvalid
    rw [AngleDataCollator_call, hrows]
    rfl

/-- Witness for C9: a feature with all-zero `seperate_ids` aborts the batch,
a valid feature collates, and `indexOfOne` finds the first 1 of `[0, 1]`. -/
theorem collator_split_totality_witness :
    collOk (AngleDataCollator_call true [(⟨[5], [1], none, [0], [0]⟩ : CollFeature)]) = false ∧
    collOk (AngleDataCollator_call true [(⟨[5, 6], [1, 1], none, [0], [0, 1]⟩ : CollFeature)]) =
      true ∧
    indexOfOne [0, 1] < ([0, 1] : List ℤ).length := by
  refine ⟨?_, ?_, ?_⟩
  · exact collator_split_totality.1 true [⟨[5], [1], none, [0], [0]⟩]
      ⟨⟨[5], [1], none, [0], [0]⟩, List.mem_singleton.mpr rfl, by decide⟩
  · refine collator_split_totality.2.1 true [⟨[5, 6], [1, 1], none, [0], [0, 1]⟩] ?_
    intro f hf
    rw [List.mem_singleton.mp hf]
    exact ⟨⟨rfl, rfl⟩, rfl, by decide⟩
  · exact (collator_split_totality.2.2 [0, 1] (by decide)).1

/-- First index of `t` in a list (Python `list.index`), as an option. -/
def firstIndexOf (l : List ℤ) (t : ℤ) : Option ℕ :=
  match l with
  | [] => none
  | x :: rest => if x = t then some 0 else (firstIndexOf rest t).map (fun i => i + 1)

/-- Backward scan of `fix_bad_data` over the reversed token list: `bad_index`
is overwritten with the prompt position of each suffix token while one is
found, the loop breaking (keeping the previous value) at the first token
absent from the prompt. -/
def badIndexAux (prompt_ids : List ℤ) : List ℤ → ℤ → ℤ
  | [], acc => acc
  | t :: rest, acc =>
    match firstIndexOf prompt_ids t with
    | none => acc
    | some i => badIndexAux prompt_ids rest (i : ℤ)

/-- Python slice `xs[:m]` for an `int` bound `m`; a negative bound counts
from the end of the list. -/
def pySliceTake (xs : List ℤ) (m : ℤ) : List ℤ :=
  if 0 ≤ m then xs.take m.toNat else xs.take ((xs.length : ℤ) + m).toNat

/-- Embedding of `AngleDataTokenizer.fix_bad_data(token_ids, prompt_ids)`:
when the backward scan finds no suffix token in the prompt the sequence is
returned unchanged; otherwise the prompt suffix from `bad_index` replaces the
tail `token_ids[:len(token_ids) - len(to_fix)] + to_fix` (for a prompt suffix
longer than the sequence the Python negative slice bound shortens the kept
prefix further, growing the result). -/
def fix_bad_data (token_ids prompt_ids : List ℤ) : List ℤ :=
  let bad_index := badIndexAux prompt_ids token_ids.reverse (-1)
  if bad_index = -1 then token_ids
  else
    let to_fix := prompt_ids.drop bad_index.toNat
    pySliceTake token_ids ((token_ids.length : ℤ) - (to_fix.length : ℤ)) ++ to_fix

/-- One tokenized text inside `AngleDataTokenizer.__call__` (the fields the
truncation guard touches). -/
structure TokPair where
  input_ids : List ℤ
  attention_mask : List ℤ
  deriving DecidableEq

/-- Post-repair validation of the guard (the two asserts): equal lengths and
a final token matching the template's final token. -/
def repairOk (tok : TokPair) (prompt_ids : List ℤ) : Prop :=
  tok.input_ids.length = tok.attention_mask.length ∧
    tok.input_ids.getLast? = prompt_ids.getLast?

/-- Embedding of the template-truncation guard of
`AngleDataTokenizer.__call__` for one tokenized text: when the final token
differs from the template's final token, `fix_bad_data`'s output is assigned
to `input_ids` before the asserts run, and the `except AssertionError` handler
only prints, so the guard is total and returns the repaired sequence whether
or not the validation passes. -/
def template_guard (tok : TokPair) (prompt_ids : List ℤ) : TokPair :=
  if ¬ tok.input_ids.getLast? = prompt_ids.getLast? then
    TokPair.mk (fix_bad_data tok.input_ids prompt_ids) tok.attention_mask
  else tok

/-- C6 counterexample: for `input_ids = [7]`, `attention_mask = [1]` and
template tokens `[7, 8]`, the repair produces `[7, 8]`, the validation fails
(length 2 against mask length 1), and the guard keeps the repaired `[7, 8]` —
not the unrepaired original `[7]` the claim promises. -/
theorem template_guard_counterexample :
    template_guard ⟨[7], [1]⟩ [7, 8] = ⟨[7, 8], [1]⟩ ∧
    ¬ repairOk (template_guard ⟨[7], [1]⟩ [7, 8]) [7, 8] ∧
    ¬ (template_guard ⟨[7], [1]⟩ [7, 8]).input_ids = [7] := by
  refine ⟨rfl, ?_, by decide⟩
  intro h
  exact absurd h.1 (by decide)

/-- C6 (amended): the guard never fails fatally (it is a total function and
the caught assert only prints a warning), but on the mismatch path the kept
sequence is `fix_bad_data`'s output — assigned before the validation asserts
— not the unrepaired original, and the attention mask is left untouched,
which is why a failed validation can leave diverging lengths. -/
theorem template_guard_keeps_repair (tok : TokPair) (prompt_ids : List ℤ)
    (hmis : ¬ tok.input_ids.getLast? = prompt_ids.getLast?)
    (_hfail : ¬ repairOk (template_guard tok prompt_ids) prompt_ids) :
    (template_guard tok prompt_ids).input_ids = fix_bad_data tok.input_ids prompt_ids ∧
    (template_guard tok prompt_ids).attention_mask = tok.attention_mask := by
  rw [template_guard, if_pos hmis]
  exact ⟨rfl, rfl⟩

/-- Witness for the amended C6 theorem at the concrete failing input. -/
theorem template_guard_keeps_repair_witness :
    ¬ ((⟨[7], [1]⟩ : TokPair).input_ids.getLast? = ([7, 8] : List ℤ).getLast?) ∧
    (template_guard ⟨[7], [1]⟩ [7, 8]).input_ids = fix_bad_data [7] [7, 8] :=
  ⟨by decide,
    (template_guard_keeps_repair ⟨[7], [1]⟩ [7, 8] (by decide)
      (fun h => absurd h.1 (by decide))).1⟩

/-- Index `torch.eq(row, pad).long().argmax(-1)` for one row: the position of
the first entry equal to `pid`, or 0 when none is (argmax of an all-zero
row). -/
def firstEqIdx (row : List ℤ) (pid : ℤ) : ℕ :=
  match firstIndexOf row pid with
  | some i => i
  | none => 0

/-- Python-style signed indexing with default: a negative index counts from
the end. -/
def pyGetD {α : Type} (xs : List α) (i : ℤ) (d : α) : α :=
  if 0 ≤ i then xs.getD i.toNat d else xs.getD ((xs.length : ℤ) + i).toNat d

/-- Columnwise mean `torch.mean(t, dim=1)` over a token-by-dimension matrix. -/
noncomputable def colMean (m : List (List ℝ)) : List ℝ :=
  (m.foldr (fun r acc => List.zipWith (fun a b => a + b) r acc)
    (List.replicate (m.headD []).length 0)).map (fun x => x / m.length)

/-- Columnwise max `torch.max(t, dim=1)`. -/
noncomputable def colMax : List (List ℝ) → List ℝ
  | [] => []
  | r :: rest => rest.foldl (fun acc row => List.zipWith max acc row) r

/-- Embedding of `Pooler.__call__`: on the decoder-only/LLM path a missing
pad token id with batch size different from 1 raises, otherwise the hidden
state at the last non-padding position (signed index -1 without a pad id, the
first-pad position minus one with one) is taken per row; on the non-LLM path
the strategy string is dispatched over the `if/elif` chain, any other value
raising `NotImplementedError` (the spec's `ConfigurationError`). -/
noncomputable def Pooler_call (is_llm : Bool) (pooling_strategy : Option String)
    (pad_token_id : Option ℤ) (hidden_states : List (List (List ℝ)))
    (input_ids : Option (List (List ℤ))) : Except String (List (List ℝ)) :=
  if is_llm then
    let batch_size := hidden_states.length
    if pad_token_id = none ∧ ¬ batch_size = 1 then
      Except.error ("Cannot handle batch sizes > 1 if no padding token is defined.")
    else
      let seq_lengths : List ℤ :=
        match pad_token_id with
        | none => hidden_states.map (fun _ => (-1 : ℤ))
        | some pid =>
          match input_ids with
          | some ids => ids.map (fun row => (firstEqIdx row pid : ℤ) - 1)
          | none => hidden_states.map (fun _ => (-1 : ℤ))
      Except.ok (List.zipWith (fun row (i : ℤ) => pyGetD row i []) hidden_states seq_lengths)
  else
    if pooling_strategy = some ("cls") then
      Except.ok (hidden_states.map (fun row => row.getD 0 []))
    else if pooling_strategy = some ("cls_avg") then
      Except.ok (hidden_states.map (fun row =>
        List.zipWith (fun a b => (a + b) / 2) (row.getD 0 []) (colMean row)))
    else if pooling_strategy = some ("last") then
      Except.ok (hidden_states.map (fun row => pyGetD row (-1) []))
    else if pooling_strategy = some ("avg") then
      Except.ok (hidden_states.map colMean)
    else if pooling_strategy = some ("max") then
      Except.ok (hidden_states.map colMax)
    else
      Except.error ("please specify pooling_strategy from cls, last, avg, max")

/-- C7 counterexample: on the LLM path with no pad token id and an empty
batch (batch size 0), the pooler raises — the code guard is `batch_size != 1`
— although the batch size is not greater than 1, so the claim's "exactly two
situations" characterization fails at batch size 0. -/
theorem Pooler_call_counterexample :
    collOk (Pooler_call true none none [] none) = false ∧
    ¬ ([] : List (List (List ℝ))).length > 1 := by
  constructor
  · rfl
  · decide

/-- C7 (amended): the pooler fails in exactly two situations — a strategy
outside the five known strings on the non-LLM path (a missing strategy
included), and, on the LLM path, a missing pad token id with batch size
DIFFERENT FROM 1 (so also for an empty batch, not only for batch sizes
greater than 1); in every other configuration it returns normally. -/
theorem Pooler_call_error_iff :
    ∀ (is_llm : Bool) (strategy : Option String) (pad : Option ℤ)
      (hidden : List (List (List ℝ))) (ids : Option (List (List ℤ))),
      collOk (Pooler_call is_llm strategy pad hidden ids) = false ↔
        ((is_llm = false ∧
          ¬ (strategy = some ("cls") ∨ strategy = some ("cls_avg") ∨
             strategy = some ("last") ∨ strategy = some ("avg") ∨
             strategy = some ("max"))) ∨
         (is_llm = true ∧ pad = none ∧ ¬ hidden.length = 1)) := by
  intro is_llm strategy pad hidden ids
  cases is_llm
  · unfold Pooler_call
    rw [if_neg Bool.false_ne_true]
    split_ifs <;> simp_all [collOk]
  · unfold Pooler_call
    rw [if_pos rfl]
    by_cases hp : pad = none ∧ ¬ hidden.length = 1
    · rw [if_pos hp]
      simp [collOk, hp]
    · rw [if_neg hp]
      simp [collOk, hp]

/-- Values stored in the `AnglE.__cfg` mapping (the persisted flat key-value
`angle.config`). -/
inductive CfgVal where
  | vStr (s : String)
  | vInt (n : ℤ)
  | vBool (b : Bool)
  | vNone
  deriving DecidableEq

/-- The stored configuration mapping. -/
def Cfg : Type :=
  String → Option CfgVal

/-- Python dict assignment `cfg[k] = v`. -/
def cfgSet (cfg : Cfg) (k : String) (v : CfgVal) : Cfg :=
  fun q => if q = k then some v else cfg q

/-- Configuration assembled by `AnglE.__init__` (construction
hyperparameters, before the trailing `kwargs` update). -/
def initCfg (model_name_or_path : String) (max_length : ℤ)
    (pooling_strategy : Option String) (apply_lora : Bool) : Cfg :=
  fun q =>
    if q = "model_name_or_path" then some (CfgVal.vStr model_name_or_path)
    else if q = "max_length" then some (CfgVal.vInt max_length)
    else if q = "pooling_strategy" then
      (match pooling_strategy with
       | some sVal => some (CfgVal.vStr sVal)
       | none => some CfgVal.vNone)
    else if q = "apply_lora" then some (CfgVal.vBool apply_lora)
    else none

/-- Post-construction operations of an `AnglE` instance, as they affect the
stored config: `fit` executes `self.__cfg['compute_similar_matrix'] = ...`
before saving the config; `evaluate`, `encode` and `cuda` never touch it
(every other read of `__cfg` in the source is `save_config`'s serialization). -/
inductive AnglEOp where
  | fit (compute_similar_matrix : Bool)
  | evaluate
  | encode
  | cuda

/-- Effect of one operation on the stored config. -/
def applyOp (cfg : Cfg) : AnglEOp → Cfg
  | AnglEOp.fit flag => cfgSet cfg ("compute_similar_matrix") (CfgVal.vBool flag)
  | AnglEOp.evaluate => cfg
  | AnglEOp.encode => cfg
  | AnglEOp.cuda => cfg

/-- Effect of a sequence of operations on the stored config. -/
def runOps (cfg : Cfg) (ops : List AnglEOp) : Cfg :=
  ops.foldl applyOp cfg

/-- C8 counterexample: a single `fit` call changes the stored config — it
writes the key `compute_similar_matrix`, absent at construction — so the
config mapping is not unchanged by post-construction operations. -/
theorem config_mutated_by_fit_counterexample :
    ¬ runOps (initCfg ("bert-base-uncased") 512 none false) [AnglEOp.fit true]
        ("compute_similar_matrix") =
      initCfg ("bert-base-uncased") 512 none false ("compute_similar_matrix") := by
  decide

/-- C8 (amended): the stored config is unchanged by every post-construction
operation except `fit`, which sets exactly the key `compute_similar_matrix`
(to the flag it was called with) and leaves every other key unchanged. -/
theorem config_unchanged_except_fit_flag :
    (∀ (cfg : Cfg) (ops : List AnglEOp) (k : String),
      ¬ k = "compute_similar_matrix" → runOps cfg ops k = cfg k) ∧
    (∀ (cfg : Cfg) (flag : Bool),
      applyOp cfg (AnglEOp.fit flag) ("compute_similar_matrix") =
        some (CfgVal.vBool flag)) := by
  constructor
  · intro cfg ops k hk
    induction ops generalizing cfg with
    | nil => rfl
    | cons op rest ih =>
      have h1 : runOps cfg (op :: rest) k = runOps (applyOp cfg op) rest k := rfl
      rw [h1, ih (applyOp cfg op)]
      cases op with
      | fit flag =>
        simp only [applyOp, cfgSet]
        exact if_neg hk
      | evaluate => rfl
      | encode => rfl
      | cuda => rfl
  · intro cfg flag
    simp only [applyOp, cfgSet]
    rw [if_pos trivial]

/-- Witness for the amended C8 theorem: `max_length` survives a `fit` and an
`evaluate`, and `fit` records its flag. -/
theorem config_unchanged_except_fit_flag_witness :
    ¬ "max_length" = "compute_similar_matrix" ∧
    runOps (initCfg ("bert-base-uncased") 512 none false)
        [AnglEOp.fit true, AnglEOp.evaluate] ("max_length") =
      initCfg ("bert-base-uncased") 512 none false ("max_length") :=
  ⟨by decide,
    config_unchanged_except_fit_flag.1 (initCfg ("bert-base-uncased") 512 none false)
      [AnglEOp.fit true, AnglEOp.evaluate] ("max_length") (by decide)⟩
